import Mathlib

/-!
Shallow embedding of the dungeon-pathfinder repository (cell.h, solver.cpp,
generator.cpp) together with theorems settling the specification claims.

Conventions of the embedding:
* `vector<string>` grids become `List (List Char)`; row/column coordinates are
  `Int`, exactly as the C++ `int` coordinates (negative values occur in the
  sentinel `Cell(-1,-1)` and in neighbour offsets before bounds checks).
* C++ `int` key masks are embedded as `Nat`: every mask the program builds
  starts at 0 and only ever has bits OR-ed in, so it stays non-negative.
* All character accesses performed by the C++ code are guarded by bounds
  checks against `dungeon.size()` and `dungeon[0].size()`; the embedding reads
  through `List.getD` with a wall `'#'` as the (never observed) default.
* The BFS worklist loops of the C++ code are embedded with an explicit fuel
  counter.  Each iteration pops one state, and a state enters the queue at
  most once because of the visited-set guard, so the number of iterations is
  bounded by the number of states, at most `rows * cols * 2^6 + 1`; the
  definitional fuel is that bound, hence the fuel-0 branch is unreachable and
  the embedding computes exactly what the terminating C++ loop computes.
-/

/-- Mirrors `struct Cell` of cell.h: a (row, column) pair of C++ ints with
structural equality. -/
structure Cell where
  r : Int
  c : Int
deriving DecidableEq

/-- A dungeon grid, the embedding of `vector<string>`: one list of characters
per row. -/
abbrev Grid := List (List Char)

/-- Mirrors the row bound `dungeon.size()` used by the C++ bounds checks. -/
def numRows (g : Grid) : Int := g.length

/-- Mirrors the column bound `dungeon[0].size()` used by the C++ bounds
checks (the first row's length). -/
def numCols (g : Grid) : Int := (g.headD []).length

/-- Character stored at (row, col).  Every C++ read `dungeon[row][col]` is
bounds-guarded; out-of-range reads of the embedding default to a wall. -/
def charAt (g : Grid) (row col : Int) : Char :=
  (g.getD row.toNat []).getD col.toNat '#'

/-- Inner loop of `findPosition`: index of the first occurrence of `target`
in one row, scanning columns left to right. -/
def findIdxRow (row : List Char) (target : Char) : Option Nat :=
  match row with
  | [] => none
  | ch :: rest =>
    if ch = target then some 0
    else (findIdxRow rest target).map (· + 1)

/-- Outer loop of `findPosition`: scan rows top to bottom, `k` is the index of
the first row of `g` in the full grid. -/
def findPositionAux (g : Grid) (target : Char) (k : Nat) : Cell :=
  match g with
  | [] => ⟨-1, -1⟩
  | row :: rest =>
    match findIdxRow row target with
    | some c => ⟨(k : Int), (c : Int)⟩
    | none => findPositionAux rest target (k + 1)

/-- Embeds `findPosition` of solver.cpp: first cell holding `target` in
row-major order, `Cell(-1,-1)` when the character is absent. -/
def findPosition (g : Grid) (target : Char) : Cell :=
  findPositionAux g target 0

/-- Embeds `isPassable` of solver.cpp (basic BFS): in bounds, not a wall, and
not a door, where the door check `cell >= 'A' && cell <= 'F'` explicitly
excludes the exit marker `'E'`. -/
def isPassable (g : Grid) (row col : Int) : Bool :=
  if row < 0 ∨ numRows g ≤ row ∨ col < 0 ∨ numCols g ≤ col then false
  else if charAt g row col = '#' then false
  else if 'A' ≤ charAt g row col ∧ charAt g row col ≤ 'F' ∧ charAt g row col ≠ 'E' then false
  else true

/-- Embeds `canPassDoor` of solver.cpp: non-doors always pass; a door needs
bit `door - 'A'` of the key mask (computed in C++ through the required
lower-case key character). -/
def canPassDoor (door : Char) (keyMask : Nat) : Bool :=
  if door < 'A' ∨ 'F' < door then true
  else
    let requiredKey := door.toNat - 'A'.toNat + 'a'.toNat
    let keyBit := requiredKey - 'a'.toNat
    ((keyMask >>> keyBit) &&& 1) != 0

/-- Embeds `collectKey` of solver.cpp: set bit `key - 'a'` of the mask for a
key character, leave the mask alone otherwise. -/
def collectKey (key : Char) (keyMask : Nat) : Nat :=
  if key < 'a' ∨ 'f' < key then keyMask
  else keyMask ||| (1 <<< (key.toNat - 'a'.toNat))

/-- Embeds `isValidPosition` of solver.cpp (key-door BFS): in bounds and not a
wall; doors are handled separately by the caller. -/
def isValidPosition (g : Grid) (row col : Int) : Bool :=
  if row < 0 ∨ numRows g ≤ row ∨ col < 0 ∨ numCols g ≤ col then false
  else decide (charAt g row col ≠ '#')

/-- Mirrors the DIRECTIONS array of cell.h: up, down, left, right. -/
def DIRECTIONS : List (Int × Int) := [(-1, 0), (1, 0), (0, -1), (0, 1)]

/-- Embeds `bfsPath` of solver.cpp.  The function locates `'S'` and `'E'` and
returns early when either is missing.  The remaining body is an unfilled
skeleton: the BFS queue is created but the seeding step (STEP 3) is a TODO, so
the `while (!bfsQueue.empty())` loop is never entered (its body, were it ever
entered, is a stub that prints a TODO message and returns the empty path), and
control falls through to the final `return vector<Cell>()`. -/
def bfsPath (g : Grid) : List Cell :=
  if (findPosition g 'S').r = -1 ∨ (findPosition g 'E').r = -1 then []
  else []

/-- Mirrors `struct KeyState` of solver.cpp: position plus key bitmask. -/
structure KeyState where
  row : Int
  col : Int
  keyMask : Nat
deriving DecidableEq

/-- The three BFS containers of `bfsPathKeys` threaded through the loop:
FIFO queue, visited set and parent map (an association list whose keys are
inserted at most once, mirroring `unordered_map`). -/
structure SearchBuf where
  queue : List KeyState
  visited : List KeyState
  parents : List (KeyState × KeyState)

/-- Lookup in the parent map, mirroring `parents.find(current)`. -/
def lookupParent (parents : List (KeyState × KeyState)) (s : KeyState) :
    Option KeyState :=
  (parents.find? (fun p => p.1 = s)).map (fun p => p.2)

/-- Loop of `reconstructKeyPath` of solver.cpp, walking parent pointers from
the goal back to the start state and prepending the visited cells (the C++
code appends and reverses at the end, which yields the same list).  The parent
map of a BFS run is acyclic and has one entry per discovered state, so a chain
from any state to the start is shorter than `fuel = parents.length + 1` and
the fuel-0 branch is unreachable. -/
def reconstructKeyPathAux (parents : List (KeyState × KeyState))
    (startS : KeyState) : Nat → KeyState → List Cell → List Cell
  | 0, _, _ => []
  | fuel + 1, current, acc =>
    if current = startS then Cell.mk startS.row startS.col :: acc
    else
      match lookupParent parents current with
      | none => []
      | some p =>
        reconstructKeyPathAux parents startS fuel p
          (Cell.mk current.row current.col :: acc)

/-- Embeds `reconstructKeyPath` of solver.cpp. -/
def reconstructKeyPath (parents : List (KeyState × KeyState))
    (startS goal : KeyState) : List Cell :=
  reconstructKeyPathAux parents startS (parents.length + 1) goal []

/-- One direction of the neighbour expansion inside the `bfsPathKeys` loop of
solver.cpp.  Skips invalid positions; then the unfilled-TODO safety block
skips every character in `'A'..'F'` (doors, but also the exit `'E'`); key
collection (TODO #2/#3) is unfilled, so the new state carries
`current.keyMask` unchanged (the C++ line reads
`KeyState newState(newRow, newCol, current.keyMask);  // FIX: Use newKeyMask instead!`);
finally the state is enqueued if not yet visited. -/
def expandNeighbor (g : Grid) (current : KeyState) (buf : SearchBuf)
    (dir : Int × Int) : SearchBuf :=
  let newRow := current.row + dir.1
  let newCol := current.col + dir.2
  if ¬ isValidPosition g newRow newCol then buf
  else if 'A' ≤ charAt g newRow newCol ∧ charAt g newRow newCol ≤ 'F' then buf
  else
    let newState : KeyState := ⟨newRow, newCol, current.keyMask⟩
    if newState ∈ buf.visited then buf
    else
      ⟨buf.queue ++ [newState], newState :: buf.visited,
        (newState, current) :: buf.parents⟩

/-- Main loop of `bfsPathKeys` of solver.cpp: pop the front state, test the
position-only goal, otherwise expand the four directions and continue.  Fuel
is decremented once per iteration; see the file header for why the supplied
fuel makes the 0 branch unreachable. -/
def bfsKeysLoop (g : Grid) (exitC : Cell) (startS : KeyState) :
    Nat → List KeyState → List KeyState → List (KeyState × KeyState) →
    List Cell
  | 0, _, _, _ => []
  | fuel + 1, queue, visited, parents =>
    match queue with
    | [] => []
    | current :: rest =>
      if current.row = exitC.r ∧ current.col = exitC.c then
        reconstructKeyPath parents startS current
      else
        let buf := DIRECTIONS.foldl (expandNeighbor g current)
          ⟨rest, visited, parents⟩
        bfsKeysLoop g exitC startS fuel buf.queue buf.visited buf.parents

/-- Fuel bound for the `bfsPathKeys` loop: the state space has at most
`rows * cols * 2^6` states and each is dequeued at most once. -/
def bfsKeysFuel (g : Grid) : Nat := 64 * g.length * (g.headD []).length + 1

/-- Embeds `bfsPathKeys` of solver.cpp: locate `'S'` and `'E'`, return empty
when either is missing, otherwise run the key-state BFS from
`(start.r, start.c, 0)`. -/
def bfsPathKeys (g : Grid) : List Cell :=
  if (findPosition g 'S').r = -1 ∨ (findPosition g 'E').r = -1 then []
  else
    bfsKeysLoop g (findPosition g 'E')
      ⟨(findPosition g 'S').r, (findPosition g 'S').c, 0⟩
      (bfsKeysFuel g)
      [⟨(findPosition g 'S').r, (findPosition g 'S').c, 0⟩]
      [⟨(findPosition g 'S').r, (findPosition g 'S').c, 0⟩]
      []

/-- Ordered update of one grid character, the embedding of
`maze[row][col] = ch`.  The C++ writes are all bounds-guarded; an
out-of-range `List.set` leaves the list unchanged and is never hit by the
guarded call sites. -/
def setCell (g : Grid) (r c : Nat) (ch : Char) : Grid :=
  g.set r ((g.getD r []).set c ch)

/-- Character read at generator-side (non-negative) coordinates. -/
def cellAt (g : Grid) (r c : Nat) : Char := (g.getD r []).getD c '#'

/-- Loop body of `addRandomRooms` of generator.cpp, with the process-wide
`mt19937 rng` modelled as a stream `rng : Nat → Nat` of its successive
outputs; `t` counts the calls made so far (two per iteration, first the row
then the column draw).  The caller guarantees `rows, cols ≥ 5`, so the
`% (rows - 4)` and `% (cols - 4)` draws land in `[0, rows - 5]` resp.
`[0, cols - 5]` and the written cell `(2 + ..., 2 + ...)` is in bounds. -/
def addRandomRoomsLoop (rng : Nat → Nat) (rows cols : Nat) :
    Nat → Nat → Grid → Grid
  | _, 0, maze => maze
  | t, n + 1, maze =>
    let row := 2 + rng t % (rows - 4)
    let col := 2 + rng (t + 1) % (cols - 4)
    let maze' :=
      if cellAt maze row col = '#' then setCell maze row col ' ' else maze
    addRandomRoomsLoop rng rows cols (t + 2) n maze'

/-- Embeds `addRandomRooms` of generator.cpp.  `totalWalls = rows*cols/4` and
`roomsToAdd = totalWalls*roomRate/100` are C++ truncating divisions of ints;
the dividends are products of non-negative sizes with `roomRate`, and for a
negative `roomRate` both the C++ quotient and the Lean quotient are ≤ 0, so
`Int.toNat` yields the same (zero) iteration count under either division
convention, while non-negative quotients agree exactly. -/
def addRandomRooms (maze : Grid) (roomRate : Int) (rng : Nat → Nat) : Grid :=
  let rows := maze.length
  let cols := (maze.headD []).length
  let totalWalls : Int := ((rows * cols : Nat) : Int) / 4
  let roomsToAdd : Int := totalWalls * roomRate / 100
  addRandomRoomsLoop rng rows cols 0 roomsToAdd.toNat maze

/-- Inner column loop of `placeStartAndExit`: the open interior cells of row
`r`, columns `1 ≤ c < cols - 1` left to right (`cols` is the first row's
length, as in the C++ code). -/
def rowOpenCells (maze : Grid) (r : Nat) : List (Nat × Nat) :=
  (List.range' 1 ((maze.headD []).length - 2)).filterMap
    (fun c => if cellAt maze r c = ' ' then some (r, c) else none)

/-- All open interior cells in row-major order, rows `1 ≤ r < rows - 1`:
the `openCells` vector collected by `placeStartAndExit` of generator.cpp. -/
def interiorOpenCells (maze : Grid) : List (Nat × Nat) :=
  (List.range' 1 (maze.length - 2)).flatMap (fun r => rowOpenCells maze r)

/-- Embeds `placeStartAndExit` of generator.cpp: collect the open interior
cells; with fewer than two of them print a warning and return with the grid
untouched; otherwise write `'S'` at the first and `'E'` at the last. -/
def placeStartAndExit (maze : Grid) : Grid :=
  let openCells := interiorOpenCells maze
  if openCells.length < 2 then maze
  else
    let first := openCells.headD (0, 0)
    let last := openCells.getLastD (0, 0)
    setCell (setCell maze first.1 first.2 'S') last.1 last.2 'E'

/-- Row-dimension coercion at the top of `generateDungeon` of generator.cpp:
an even input is incremented by one, then both dimensions are clamped up to 5
whenever either is below 5. -/
def coercedRows (rows0 cols0 : Int) : Int :=
  let rows1 := if rows0 % 2 = 0 then rows0 + 1 else rows0
  let cols1 := if cols0 % 2 = 0 then cols0 + 1 else cols0
  if rows1 < 5 ∨ cols1 < 5 then max rows1 5 else rows1

/-- Column-dimension coercion of `generateDungeon`, as `coercedRows`. -/
def coercedCols (rows0 cols0 : Int) : Int :=
  let rows1 := if rows0 % 2 = 0 then rows0 + 1 else rows0
  let cols1 := if cols0 % 2 = 0 then cols0 + 1 else cols0
  if rows1 < 5 ∨ cols1 < 5 then max cols1 5 else cols1

/-- Embeds `generateDungeon` of generator.cpp (the skeleton version whose
`recursiveBacktrack` call is an unfilled TODO, so no maze carving happens
between wall initialization and room punching): coerce the dimensions, build
the all-wall grid, punch random rooms, place start and exit. -/
def generateDungeon (rows0 cols0 roomRate : Int) (rng : Nat → Nat) : Grid :=
  let rows := coercedRows rows0 cols0
  let cols := coercedCols rows0 cols0
  let maze : Grid := List.replicate rows.toNat (List.replicate cols.toNat '#')
  placeStartAndExit (addRandomRooms maze roomRate rng)

/-- Claim-side reading of C4, following the spec sentence literally: passable
iff in bounds and the symbol is neither the wall `'#'` nor a character in the
door range `'A'` through `'F'` (with no exception for `'E'`). -/
def isPassableClaimed (g : Grid) (row col : Int) : Prop :=
  0 ≤ row ∧ row < numRows g ∧ 0 ≤ col ∧ col < numCols g ∧
  charAt g row col ≠ '#' ∧ ¬ ('A' ≤ charAt g row col ∧ charAt g row col ≤ 'F')

/-- Fixture of spec scenario 1: a straight corridor from `S` to `E`. -/
def straightCorridor : Grid :=
  ["#######".toList, "#S   E#".toList, "#######".toList]

/-- Fixture of spec scenario 3: key `a` at (1,6), door `A` at (2,1) gating the
only route from `S` at (1,1) to `E` at (3,1). -/
def keyDoorFixture : Grid :=
  ["########".toList, "#S    a#".toList, "#A######".toList,
   "#E######".toList, "########".toList]

/-- Fixture for the key-collection step: the key `a` at (1,2) lies directly
right of the start (1,1). -/
def keyStepFixture : Grid := ["####".toList, "#Sa#".toList, "####".toList]

/-- Fixture with no open interior cell. -/
def allWallsFixture : Grid := ["###".toList, "###".toList, "###".toList]

/-- Fixture with exactly two open interior cells, (1,1) and (2,1). -/
def twoOpenFixture : Grid :=
  ["###".toList, "# #".toList, "# #".toList, "###".toList]

/-- Index returned by `findIdxRow` points at the target character. -/
theorem findIdxRow_some_getD (row : List Char) (t : Char) (c : Nat)
    (h : findIdxRow row t = some c) : row.getD c '#' = t := by
  induction row generalizing c with
  | nil => simp [findIdxRow] at h
  | cons ch rest ih =>
    by_cases hc : ch = t
    · rw [findIdxRow, if_pos hc] at h
      cases h
      simpa using hc
    · rw [findIdxRow, if_neg hc] at h
      cases hidx : findIdxRow rest t with
      | none => rw [hidx] at h; simp at h
      | some c' =>
        rw [hidx] at h
        simp at h
        subst h
        simpa using ih c' hidx

/-- A row without the target yields no index. -/
theorem findIdxRow_eq_none_of_not_mem (row : List Char) (t : Char)
    (h : t ∉ row) : findIdxRow row t = none := by
  induction row with
  | nil => rfl
  | cons ch rest ih =>
    rw [List.mem_cons, not_or] at h
    rw [findIdxRow, if_neg (fun hc => h.1 hc.symm), ih h.2]
    rfl

/-- A row containing the target yields an index. -/
theorem findIdxRow_isSome_of_mem (row : List Char) (t : Char)
    (h : t ∈ row) : (findIdxRow row t).isSome := by
  induction row with
  | nil => simp at h
  | cons ch rest ih =>
    by_cases hc : ch = t
    · rw [findIdxRow, if_pos hc]; rfl
    · rw [findIdxRow, if_neg hc]
      rcases List.mem_cons.mp h with h1 | h1
      · exact absurd h1.symm hc
      · cases hidx : findIdxRow rest t with
        | none => have hs := ih h1; rw [hidx] at hs; simp at hs
        | some c' => rfl

/-- When `findPositionAux` does not return the sentinel, the returned
coordinates are the offsets of a cell holding the target. -/
theorem findPositionAux_found (g : Grid) (t : Char) :
    ∀ k, (findPositionAux g t k).r ≠ -1 →
      ∃ i ci : Nat,
        findPositionAux g t k = ⟨((k + i : Nat) : Int), (ci : Int)⟩ ∧
        (g.getD i []).getD ci '#' = t := by
  induction g with
  | nil => intro k h; simp [findPositionAux] at h
  | cons row rest ih =>
    intro k h
    cases hidx : findIdxRow row t with
    | some c =>
      refine ⟨0, c, ?_, ?_⟩
      · simp [findPositionAux, hidx]
      · simpa using findIdxRow_some_getD row t c hidx
    | none =>
      have hrec : findPositionAux (row :: rest) t k =
          findPositionAux rest t (k + 1) := by
        simp [findPositionAux, hidx]
      rw [hrec] at h
      obtain ⟨i, ci, heq, hch⟩ := ih (k + 1) h
      refine ⟨i + 1, ci, ?_, ?_⟩
      · rw [hrec, heq]
        congr 2
        omega
      · simpa using hch

/-- A successful `findPosition` returns non-negative coordinates of a cell
that holds the target character. -/
theorem findPosition_char (g : Grid) (t : Char)
    (h : (findPosition g t).r ≠ -1) :
    0 ≤ (findPosition g t).r ∧ 0 ≤ (findPosition g t).c ∧
      charAt g (findPosition g t).r (findPosition g t).c = t := by
  obtain ⟨i, ci, heq, hch⟩ := findPositionAux_found g t 0 h
  rw [findPosition, heq]
  refine ⟨by dsimp only; omega, by dsimp only; omega, ?_⟩
  simp only [charAt, Int.toNat_natCast]
  simpa using hch

/-- A grid containing the target makes `findPositionAux` succeed. -/
theorem findPositionAux_ne_of_mem (g : Grid) (t : Char)
    (h : ∃ row ∈ g, t ∈ row) : ∀ k, (findPositionAux g t k).r ≠ -1 := by
  induction g with
  | nil => simp at h
  | cons row rest ih =>
    intro k
    by_cases hrow : t ∈ row
    · have hs := findIdxRow_isSome_of_mem row t hrow
      cases hidx : findIdxRow row t with
      | none => rw [hidx] at hs; simp at hs
      | some c =>
        have heq : findPositionAux (row :: rest) t k =
            ⟨(k : Int), (c : Int)⟩ := by
          simp [findPositionAux, hidx]
        rw [heq]
        dsimp only
        omega
    · obtain ⟨r0, hr0, hmem⟩ := h
      rcases List.mem_cons.mp hr0 with h1 | h1
      · exact absurd (h1 ▸ hmem) hrow
      · have hidx := findIdxRow_eq_none_of_not_mem row t hrow
        have hrec : findPositionAux (row :: rest) t k =
            findPositionAux rest t (k + 1) := by
          simp [findPositionAux, hidx]
        rw [hrec]
        exact ih ⟨r0, h1, hmem⟩ (k + 1)

/-- A grid without the target makes `findPositionAux` return the sentinel. -/
theorem findPositionAux_not_mem (g : Grid) (t : Char)
    (h : ∀ row ∈ g, t ∉ row) : ∀ k, findPositionAux g t k = ⟨-1, -1⟩ := by
  induction g with
  | nil => intro k; rfl
  | cons row rest ih =>
    intro k
    have hidx := findIdxRow_eq_none_of_not_mem row t (h row (by simp))
    have hrec : findPositionAux (row :: rest) t k =
        findPositionAux rest t (k + 1) := by
      simp [findPositionAux, hidx]
    rw [hrec]
    exact ih (fun r hr => h r (List.mem_cons_of_mem _ hr)) (k + 1)

/-- Every state in the queue after one `expandNeighbor` step was already
queued or sits on a cell whose character is outside `'A'..'F'` (the
unfilled-TODO safety block never enqueues such cells). -/
theorem expandNeighbor_queue_cases (g : Grid) (cur : KeyState)
    (buf : SearchBuf) (dir : Int × Int) (s : KeyState)
    (h : s ∈ (expandNeighbor g cur buf dir).queue) :
    s ∈ buf.queue ∨
      ¬ ('A' ≤ charAt g s.row s.col ∧ charAt g s.row s.col ≤ 'F') := by
  unfold expandNeighbor at h
  by_cases h1 : ¬ isValidPosition g (cur.row + dir.1) (cur.col + dir.2)
  · rw [if_pos h1] at h; exact Or.inl h
  · rw [if_neg h1] at h
    by_cases h2 : 'A' ≤ charAt g (cur.row + dir.1) (cur.col + dir.2) ∧
        charAt g (cur.row + dir.1) (cur.col + dir.2) ≤ 'F'
    · rw [if_pos h2] at h; exact Or.inl h
    · rw [if_neg h2] at h
      by_cases h3 : (⟨cur.row + dir.1, cur.col + dir.2, cur.keyMask⟩ :
          KeyState) ∈ buf.visited
      · rw [if_pos h3] at h; exact Or.inl h
      · rw [if_neg h3] at h
        dsimp only at h
        rcases List.mem_append.mp h with h4 | h4
        · exact Or.inl h4
        · right
          have hs : s = (⟨cur.row + dir.1, cur.col + dir.2, cur.keyMask⟩ :
              KeyState) := by
            simpa using h4
          rw [hs]
          exact h2

/-- Folding `expandNeighbor` over any direction list only adds states on
cells outside `'A'..'F'`. -/
theorem foldl_expand_queue_cases (g : Grid) (cur : KeyState) (s : KeyState) :
    ∀ (l : List (Int × Int)) (buf : SearchBuf),
      s ∈ (l.foldl (expandNeighbor g cur) buf).queue →
      s ∈ buf.queue ∨
        ¬ ('A' ≤ charAt g s.row s.col ∧ charAt g s.row s.col ≤ 'F') := by
  intro l
  induction l with
  | nil => intro buf h; exact Or.inl h
  | cons d ds ih =>
    intro buf h
    rcases ih (expandNeighbor g cur buf d) h with h1 | h1
    · exact expandNeighbor_queue_cases g cur buf d s h1
    · exact Or.inr h1

/-- When the exit cell holds `'E'` and no queued state sits on the exit
position, the key-door BFS loop drains and returns the empty path: the
safety block skips every cell in `'A'..'F'`, so the exit cell is never
enqueued and the goal test never fires. -/
theorem bfsKeysLoop_empty_of_no_goal (g : Grid) (exitC : Cell)
    (startS : KeyState)
    (hE : charAt g exitC.r exitC.c = 'E') :
    ∀ (fuel : Nat) (queue visited : List KeyState)
      (parents : List (KeyState × KeyState)),
      (∀ s ∈ queue, ¬ (s.row = exitC.r ∧ s.col = exitC.c)) →
      bfsKeysLoop g exitC startS fuel queue visited parents = [] := by
  intro fuel
  induction fuel with
  | zero => intro queue visited parents _; rfl
  | succ fuel ih =>
    intro queue visited parents hinv
    cases queue with
    | nil => rfl
    | cons current rest =>
      rw [bfsKeysLoop, if_neg (hinv current (List.mem_cons_self _ _))]
      apply ih
      intro s hs
      rcases foldl_expand_queue_cases g current s DIRECTIONS
          ⟨rest, visited, parents⟩ hs with h1 | h1
      · exact hinv s (List.mem_cons_of_mem _ h1)
      · intro hpos
        apply h1
        rw [hpos.1, hpos.2, hE]
        exact ⟨by decide, by decide⟩

/-- Writing one character never changes the list of row lengths. -/
theorem map_length_setCell (g : Grid) :
    ∀ (r : Nat) (c : Nat) (ch : Char),
      (setCell g r c ch).map List.length = g.map List.length := by
  induction g with
  | nil => intro r c ch; rfl
  | cons row rest ih =>
    intro r c ch
    cases r with
    | zero =>
      simp only [setCell, List.getD_cons_zero, List.set_cons_zero,
        List.map_cons]
      rw [List.length_set]
    | succ n =>
      have heq : setCell (row :: rest) (n + 1) c ch =
          row :: setCell rest n c ch := by
        simp [setCell, List.getD_cons_succ]
      rw [heq, List.map_cons, List.map_cons, ih n c ch]

/-- Writing one character preserves the number of rows. -/
theorem length_setCell (g : Grid) (r c : Nat) (ch : Char) :
    (setCell g r c ch).length = g.length := by
  have h := congrArg List.length (map_length_setCell g r c ch)
  simpa using h

/-- The room-punching loop preserves the list of row lengths. -/
theorem map_length_addRandomRoomsLoop (rng : Nat → Nat) (rows cols : Nat) :
    ∀ (n t : Nat) (maze : Grid),
      (addRandomRoomsLoop rng rows cols t n maze).map List.length =
        maze.map List.length := by
  intro n
  induction n with
  | zero => intro t maze; rfl
  | succ n ih =>
    intro t maze
    simp only [addRandomRoomsLoop]
    split
    · rw [ih, map_length_setCell]
    · rw [ih]

/-- Room punching preserves the list of row lengths. -/
theorem map_length_addRandomRooms (maze : Grid) (roomRate : Int)
    (rng : Nat → Nat) :
    (addRandomRooms maze roomRate rng).map List.length =
      maze.map List.length := by
  unfold addRandomRooms
  exact map_length_addRandomRoomsLoop rng _ _ _ 0 maze

/-- Start/exit placement preserves the list of row lengths. -/
theorem map_length_placeStartAndExit (maze : Grid) :
    (placeStartAndExit maze).map List.length = maze.map List.length := by
  simp only [placeStartAndExit]
  split
  · rfl
  · rw [map_length_setCell, map_length_setCell]

/-- The coerced dimensions are always odd and at least 5. -/
theorem coerced_odd_ge5 (rows0 cols0 : Int) :
    coercedRows rows0 cols0 % 2 = 1 ∧ 5 ≤ coercedRows rows0 cols0 ∧
    coercedCols rows0 cols0 % 2 = 1 ∧ 5 ≤ coercedCols rows0 cols0 := by
  simp only [coercedRows, coercedCols]
  split_ifs <;> omega

/-- An open cell is in range of its row and of the grid. -/
theorem cellAt_lt_of_open (maze : Grid) (r c : Nat)
    (h : cellAt maze r c = ' ') :
    r < maze.length ∧ c < (maze.getD r []).length := by
  constructor
  · by_contra hr
    push_neg at hr
    have h0 : maze.getD r [] = [] := List.getD_eq_default _ _ hr
    rw [cellAt, h0] at h
    simp [List.getD] at h
  · by_contra hc
    push_neg at hc
    rw [cellAt, List.getD_eq_default _ _ hc] at h
    exact absurd h (by decide)

/-- Reading back an in-range written cell gives the written character. -/
theorem cellAt_setCell_same (g : Grid) (r c : Nat) (ch : Char)
    (hr : r < g.length) (hc : c < (g.getD r []).length) :
    cellAt (setCell g r c ch) r c = ch := by
  simp only [List.getD_eq_getElem?_getD] at hc
  have hc' : c < g[r].length := by
    rwa [List.getElem?_eq_getElem hr, Option.getD_some] at hc
  simp only [cellAt, setCell, List.getD_eq_getElem?_getD]
  simp [List.getElem?_set, hr, hc']

/-- Reading any other cell after a write gives the old character. -/
theorem cellAt_setCell_of_ne (g : Grid) (r c r' c' : Nat) (ch : Char)
    (h : ¬ (r' = r ∧ c' = c)) :
    cellAt (setCell g r c ch) r' c' = cellAt g r' c' := by
  by_cases hr : r' = r
  · subst hr
    have hcne : ¬ c = c' := fun hcc => h ⟨rfl, hcc.symm⟩
    simp only [cellAt, setCell, List.getD_eq_getElem?_getD]
    by_cases hlt : r' < g.length
    · simp [List.getElem?_set, hlt, hcne]
    · have h1 : g[r']? = none := List.getElem?_eq_none (Nat.le_of_not_lt hlt)
      simp [List.getElem?_set, hlt, h1]
  · have hr' : ¬ r = r' := fun hcc => hr hcc.symm
    simp only [cellAt, setCell, List.getD_eq_getElem?_getD]
    simp [List.getElem?_set, hr']

/-- Cells collected from one row are in that row, interior, and open. -/
theorem mem_rowOpenCells (maze : Grid) (r : Nat) (p : Nat × Nat)
    (h : p ∈ rowOpenCells maze r) :
    p.1 = r ∧ 1 ≤ p.2 ∧ p.2 + 1 < (maze.headD []).length ∧
      cellAt maze p.1 p.2 = ' ' := by
  rw [rowOpenCells, List.mem_filterMap] at h
  obtain ⟨c, hc, hf⟩ := h
  rw [List.mem_range'_1] at hc
  by_cases hcell : cellAt maze r c = ' '
  · rw [if_pos hcell] at hf
    cases hf
    exact ⟨rfl, hc.1, by omega, hcell⟩
  · rw [if_neg hcell] at hf
    cases hf

/-- Collected cells are interior open-floor cells. -/
theorem mem_interiorOpenCells (maze : Grid) (p : Nat × Nat)
    (h : p ∈ interiorOpenCells maze) :
    1 ≤ p.1 ∧ p.1 + 1 < maze.length ∧ 1 ≤ p.2 ∧
      p.2 + 1 < (maze.headD []).length ∧ cellAt maze p.1 p.2 = ' ' := by
  rw [interiorOpenCells, List.mem_flatMap] at h
  obtain ⟨r, hr, hp⟩ := h
  rw [List.mem_range'_1] at hr
  obtain ⟨h1, h2, h3, h4⟩ := mem_rowOpenCells maze r p hp
  exact ⟨by omega, by omega, h2, h3, h4⟩

/-- One row contributes each open cell at most once. -/
theorem nodup_rowOpenCells (maze : Grid) (r : Nat) :
    (rowOpenCells maze r).Nodup := by
  rw [rowOpenCells]
  apply List.Nodup.filterMap
  · intro a a' b hb hb'
    simp only [Option.mem_def] at hb hb'
    by_cases ha : cellAt maze r a = ' '
    · rw [if_pos ha] at hb
      by_cases ha' : cellAt maze r a' = ' '
      · rw [if_pos ha'] at hb'
        cases hb; cases hb'; rfl
      · rw [if_neg ha'] at hb'; cases hb'
    · rw [if_neg ha] at hb; cases hb
  · exact List.nodup_range' _ _

/-- Distinct rows contribute disjoint cell lists, so the row-major list of
open interior cells has no duplicates. -/
theorem nodup_flatMap_rowOpenCells (maze : Grid) :
    ∀ rs : List Nat, rs.Nodup →
      (rs.flatMap (fun r => rowOpenCells maze r)).Nodup := by
  intro rs
  induction rs with
  | nil => intro _; simp
  | cons r rest ih =>
    intro hnd
    rw [List.flatMap_cons, List.nodup_append]
    obtain ⟨hr_not, hrest⟩ := List.nodup_cons.mp hnd
    refine ⟨nodup_rowOpenCells maze r, ih hrest, ?_⟩
    intro x hx1 hx2
    obtain ⟨hx1r, -, -, -⟩ := mem_rowOpenCells maze r x hx1
    rw [List.mem_flatMap] at hx2
    obtain ⟨r', hr', hx2'⟩ := hx2
    obtain ⟨hx2r, -, -, -⟩ := mem_rowOpenCells maze r' x hx2'
    have hrr : r = r' := by rw [← hx1r, hx2r]
    rw [hrr] at hr_not
    exact hr_not hr'

/-- The open-interior-cell list has no duplicates. -/
theorem nodup_interiorOpenCells (maze : Grid) :
    (interiorOpenCells maze).Nodup := by
  rw [interiorOpenCells]
  exact nodup_flatMap_rowOpenCells maze _ (List.nodup_range' _ _)

/-- The default head of a nonempty list is a member. -/
theorem headD_mem_pairs (l : List (Nat × Nat)) (h : l ≠ []) :
    l.headD (0, 0) ∈ l := by
  cases l with
  | nil => exact absurd rfl h
  | cons a l' => rw [List.headD_cons]; exact List.mem_cons_self _ _

/-- The default last element of a nonempty list is a member. -/
theorem getLastD_mem_pairs (l : List (Nat × Nat)) (h : l ≠ []) :
    l.getLastD (0, 0) ∈ l := by
  rw [List.getLastD_eq_getLast?]
  cases hq : l.getLast? with
  | none => exact absurd (List.getLast?_eq_none_iff.mp hq) h
  | some q => rw [Option.getD_some]; exact List.mem_of_mem_getLast? hq

/-- In a duplicate-free list of length at least two, the first and last
elements differ. -/
theorem headD_ne_getLastD_pairs (l : List (Nat × Nat)) (hnd : l.Nodup)
    (hlen : 2 ≤ l.length) : l.headD (0, 0) ≠ l.getLastD (0, 0) := by
  cases l with
  | nil => simp at hlen
  | cons a l' =>
    cases l' with
    | nil => simp at hlen
    | cons b rest =>
      rw [List.headD_cons, List.getLastD_cons, List.getLastD_eq_getLast?]
      cases hq : (b :: rest).getLast? with
      | none => exact absurd (List.getLast?_eq_none_iff.mp hq) (by simp)
      | some q =>
        rw [Option.getD_some]
        have hqmem : q ∈ b :: rest := List.mem_of_mem_getLast? hq
        have hanot : a ∉ b :: rest := (List.nodup_cons.mp hnd).1
        intro heq
        rw [heq] at hanot
        exact hanot hqmem

/-- Equal row-length lists give equal default row lengths everywhere. -/
theorem getD_length_of_map_length_eq (g1 g2 : Grid)
    (h : g1.map List.length = g2.map List.length) (i : Nat) :
    (g1.getD i []).length = (g2.getD i []).length := by
  have e1 : (g1.getD i []).length = (g1.map List.length).getD i 0 := by
    rw [List.getD_eq_getElem?_getD, List.getD_eq_getElem?_getD,
      List.getElem?_map]
    cases g1[i]? <;> rfl
  have e2 : (g2.getD i []).length = (g2.map List.length).getD i 0 := by
    rw [List.getD_eq_getElem?_getD, List.getD_eq_getElem?_getD,
      List.getElem?_map]
    cases g2[i]? <;> rfl
  rw [e1, e2, h]

/-- C1: on the spec's straight-corridor grid, which contains `S` at (1,1)
and `E` at (1,5), `bfsPath` returns the empty path instead of the 6-cell
shortest path (1,1)..(1,5) that the claim demands — the BFS body of the
skeleton is an unfilled TODO, so no search ever happens. -/
theorem bfsPath_straight_corridor_empty :
    findPosition straightCorridor 'S' = ⟨1, 1⟩ ∧
    findPosition straightCorridor 'E' = ⟨1, 5⟩ ∧
    bfsPath straightCorridor = [] := by
  refine ⟨by decide, by decide, by decide⟩

/-- C2: on a key-door grid with key `a` at (1,6) and door `A` at (2,1)
gating the only route to `E`, `bfsPath` does return the empty path as
claimed, but `bfsPathKeys` also returns the empty path instead of the
claimed non-empty path through the key — its door-checking and
key-collection TODOs are unfilled and the safety block skips every `A`-`F`
cell, the exit `E` included. -/
theorem bfsPath_and_bfsPathKeys_key_door_fixture_empty :
    findPosition keyDoorFixture 'a' = ⟨1, 6⟩ ∧
    findPosition keyDoorFixture 'A' = ⟨2, 1⟩ ∧
    findPosition keyDoorFixture 'S' = ⟨1, 1⟩ ∧
    findPosition keyDoorFixture 'E' = ⟨3, 1⟩ ∧
    bfsPath keyDoorFixture = [] ∧
    bfsPathKeys keyDoorFixture = [] := by
  refine ⟨by decide, by decide, by decide, by decide, by decide, by decide⟩

/-- C3: stepping from state (1,1, mask 0) onto the key cell (1,2) holding
`'a'`, the `bfsPathKeys` neighbour expansion enqueues the state with the
mask still 0, not with `collectKey('a', 0) = 1` as the claim states — the
key-collection TODO is unfilled and the C++ even carries the comment
`FIX: Use newKeyMask instead!`. -/
theorem key_cell_enqueued_with_unchanged_mask :
    charAt keyStepFixture 1 2 = 'a' ∧
    (expandNeighbor keyStepFixture ⟨1, 1, 0⟩ ⟨[], [⟨1, 1, 0⟩], []⟩
        (0, 1)).queue = [⟨1, 2, 0⟩] ∧
    collectKey (charAt keyStepFixture 1 2) 0 = 1 := by
  refine ⟨by decide, by decide, by decide⟩

/-- C4 counterexample: on the one-cell grid holding the exit `'E'`, which
lies in the character range `'A'..'F'`, `isPassable` returns true, so the
claim's "neither `'#'` nor a door symbol in the range `'A'` through `'F'`"
characterisation (formalised as `isPassableClaimed`) is false for it. -/
theorem isPassable_exit_cell_counterexample :
    ¬ (isPassable [['E']] 0 0 = true ↔ isPassableClaimed [['E']] 0 0) := by
  unfold isPassableClaimed
  decide

/-- C4 amended: `isPassable` returns true iff the position is in bounds and
the symbol there is neither the wall `'#'` nor a character in the range
`'A'..'F'` other than the exit marker `'E'`, which is passable. -/
theorem isPassable_iff_not_wall_not_door_except_exit (g : Grid)
    (row col : Int) :
    isPassable g row col = true ↔
      (0 ≤ row ∧ row < numRows g ∧ 0 ≤ col ∧ col < numCols g ∧
       charAt g row col ≠ '#' ∧
       ¬ ('A' ≤ charAt g row col ∧ charAt g row col ≤ 'F' ∧
          charAt g row col ≠ 'E')) := by
  unfold isPassable
  by_cases h1 : row < 0 ∨ numRows g ≤ row ∨ col < 0 ∨ numCols g ≤ col
  · rw [if_pos h1]
    simp only [Bool.false_eq_true, false_iff]
    rintro ⟨a1, a2, a3, a4, -, -⟩
    rcases h1 with h | h | h | h <;> omega
  · rw [if_neg h1]
    push_neg at h1
    obtain ⟨b1, b2, b3, b4⟩ := h1
    by_cases h2 : charAt g row col = '#'
    · rw [if_pos h2]
      simp only [Bool.false_eq_true, false_iff]
      rintro ⟨-, -, -, -, hne, -⟩
      exact hne h2
    · rw [if_neg h2]
      by_cases h3 : 'A' ≤ charAt g row col ∧ charAt g row col ≤ 'F' ∧
          charAt g row col ≠ 'E'
      · rw [if_pos h3]
        simp only [Bool.false_eq_true, false_iff]
        rintro ⟨-, -, -, -, -, hnd⟩
        exact hnd h3
      · rw [if_neg h3]
        simp only [true_iff]
        exact ⟨b1, b2, b3, b4, h2, h3⟩

/-- C5: when the grid lacks `'S'` or lacks `'E'`, both pathfinders detect
the sentinel from `findPosition` and return the empty path; being pure
functions of the grid they leave it unmodified. -/
theorem missing_endpoint_returns_empty (g : Grid)
    (h : (∀ row ∈ g, 'S' ∉ row) ∨ (∀ row ∈ g, 'E' ∉ row)) :
    bfsPath g = [] ∧ bfsPathKeys g = [] := by
  have hcond : (findPosition g 'S').r = -1 ∨ (findPosition g 'E').r = -1 := by
    cases h with
    | inl hS =>
      exact Or.inl (by rw [findPosition, findPositionAux_not_mem g 'S' hS 0])
    | inr hE =>
      exact Or.inr (by rw [findPosition, findPositionAux_not_mem g 'E' hE 0])
  exact ⟨by unfold bfsPath; rw [if_pos hcond],
    by unfold bfsPathKeys; rw [if_pos hcond]⟩

/-- C5 witness: an all-wall-and-exit grid without `'S'` makes both
pathfinders return the empty path. -/
theorem missing_endpoint_returns_empty_witness :
    bfsPath [['#', '#'], ['#', 'E']] = [] ∧
    bfsPathKeys [['#', '#'], ['#', 'E']] = [] :=
  missing_endpoint_returns_empty [['#', '#'], ['#', 'E']]
    (Or.inl (by decide))

/-- C6: the generated dungeon has exactly the coerced dimensions — even
inputs incremented by one, then both clamped up to 5 when either is below
5 — and those dimensions are always odd and at least 5 (so in particular
`generateDungeon 4 4 0` is 5 by 5), for every random stream. -/
theorem generateDungeon_dimensions_odd_ge_five (rows0 cols0 roomRate : Int)
    (rng : Nat → Nat) :
    ((generateDungeon rows0 cols0 roomRate rng).length : Int) =
        coercedRows rows0 cols0 ∧
    (∀ row ∈ generateDungeon rows0 cols0 roomRate rng,
        (row.length : Int) = coercedCols rows0 cols0) ∧
    coercedRows rows0 cols0 % 2 = 1 ∧ 5 ≤ coercedRows rows0 cols0 ∧
    coercedCols rows0 cols0 % 2 = 1 ∧ 5 ≤ coercedCols rows0 cols0 := by
  have hodd := coerced_odd_ge5 rows0 cols0
  have hmap : (generateDungeon rows0 cols0 roomRate rng).map List.length =
      List.replicate (coercedRows rows0 cols0).toNat
        (coercedCols rows0 cols0).toNat := by
    simp only [generateDungeon]
    rw [map_length_placeStartAndExit, map_length_addRandomRooms,
      List.map_replicate, List.length_replicate]
  have hlen : (generateDungeon rows0 cols0 roomRate rng).length =
      (coercedRows rows0 cols0).toNat := by
    have h := congrArg List.length hmap
    simpa using h
  refine ⟨?_, ?_, hodd.1, hodd.2.1, hodd.2.2.1, hodd.2.2.2⟩
  · rw [hlen, Int.toNat_of_nonneg (by omega)]
  · intro row hrow
    have hmem : row.length ∈
        (generateDungeon rows0 cols0 roomRate rng).map List.length :=
      List.mem_map_of_mem _ hrow
    rw [hmap] at hmem
    rw [List.eq_of_mem_replicate hmem, Int.toNat_of_nonneg (by omega)]

/-- C7: with at least two open interior cells (row-major order), start/exit
placement writes `'S'` at the first and `'E'` at the last such cell (two
distinct open cells), changes nothing else, and preserves the grid's shape;
with fewer than two open cells the grid is returned completely unchanged —
no write happens at all. -/
theorem placeStartAndExit_first_last_spec (maze : Grid) :
    ((interiorOpenCells maze).length < 2 → placeStartAndExit maze = maze) ∧
    (2 ≤ (interiorOpenCells maze).length →
      (interiorOpenCells maze).headD (0, 0) ≠
          (interiorOpenCells maze).getLastD (0, 0) ∧
      cellAt maze ((interiorOpenCells maze).headD (0, 0)).1
          ((interiorOpenCells maze).headD (0, 0)).2 = ' ' ∧
      cellAt maze ((interiorOpenCells maze).getLastD (0, 0)).1
          ((interiorOpenCells maze).getLastD (0, 0)).2 = ' ' ∧
      cellAt (placeStartAndExit maze)
          ((interiorOpenCells maze).headD (0, 0)).1
          ((interiorOpenCells maze).headD (0, 0)).2 = 'S' ∧
      cellAt (placeStartAndExit maze)
          ((interiorOpenCells maze).getLastD (0, 0)).1
          ((interiorOpenCells maze).getLastD (0, 0)).2 = 'E' ∧
      (∀ r c : Nat, (r, c) ≠ (interiorOpenCells maze).headD (0, 0) →
        (r, c) ≠ (interiorOpenCells maze).getLastD (0, 0) →
        cellAt (placeStartAndExit maze) r c = cellAt maze r c) ∧
      (placeStartAndExit maze).map List.length = maze.map List.length) := by
  constructor
  · intro hlt
    simp only [placeStartAndExit]
    rw [if_pos hlt]
  · intro hge
    have hnd := nodup_interiorOpenCells maze
    have hne : interiorOpenCells maze ≠ [] := by
      intro h0
      rw [h0] at hge
      simp at hge
    have hpmem := headD_mem_pairs _ hne
    have hqmem := getLastD_mem_pairs _ hne
    obtain ⟨hp1, hp2, hp3, hp4, hp5⟩ := mem_interiorOpenCells maze _ hpmem
    obtain ⟨hq1, hq2, hq3, hq4, hq5⟩ := mem_interiorOpenCells maze _ hqmem
    have hpq := headD_ne_getLastD_pairs _ hnd hge
    have hpqc : ¬ (((interiorOpenCells maze).headD (0, 0)).1 =
          ((interiorOpenCells maze).getLastD (0, 0)).1 ∧
        ((interiorOpenCells maze).headD (0, 0)).2 =
          ((interiorOpenCells maze).getLastD (0, 0)).2) := by
      intro hand
      exact hpq (Prod.ext hand.1 hand.2)
    obtain ⟨hpr, hpc⟩ := cellAt_lt_of_open maze _ _ hp5
    obtain ⟨hqr, hqc⟩ := cellAt_lt_of_open maze _ _ hq5
    have hres : placeStartAndExit maze =
        setCell (setCell maze ((interiorOpenCells maze).headD (0, 0)).1
            ((interiorOpenCells maze).headD (0, 0)).2 'S')
          ((interiorOpenCells maze).getLastD (0, 0)).1
          ((interiorOpenCells maze).getLastD (0, 0)).2 'E' := by
      simp only [placeStartAndExit]
      rw [if_neg (by omega)]
    refine ⟨hpq, hp5, hq5, ?_, ?_, ?_, map_length_placeStartAndExit maze⟩
    · rw [hres, cellAt_setCell_of_ne _ _ _ _ _ _ hpqc]
      exact cellAt_setCell_same maze _ _ 'S' hpr hpc
    · rw [hres]
      apply cellAt_setCell_same
      · rw [length_setCell]
        exact hqr
      · rw [getD_length_of_map_length_eq _ maze
          (map_length_setCell maze _ _ _) _]
        exact hqc
    · intro r c hrp hrq
      have hc1 : ¬ (r = ((interiorOpenCells maze).getLastD (0, 0)).1 ∧
          c = ((interiorOpenCells maze).getLastD (0, 0)).2) := by
        intro hand
        exact hrq (Prod.ext hand.1 hand.2)
      have hc2 : ¬ (r = ((interiorOpenCells maze).headD (0, 0)).1 ∧
          c = ((interiorOpenCells maze).headD (0, 0)).2) := by
        intro hand
        exact hrp (Prod.ext hand.1 hand.2)
      rw [hres, cellAt_setCell_of_ne _ _ _ _ _ _ hc1,
        cellAt_setCell_of_ne _ _ _ _ _ _ hc2]

/-- C7 witness: the all-wall 3x3 grid (no open interior cell) is returned
unchanged, and on the 4x3 grid with exactly the two open interior cells
(1,1) and (2,1) the placement writes `'S'` at (1,1) and `'E'` at (2,1). -/
theorem placeStartAndExit_first_last_spec_witness :
    (interiorOpenCells allWallsFixture).length < 2 ∧
    placeStartAndExit allWallsFixture = allWallsFixture ∧
    2 ≤ (interiorOpenCells twoOpenFixture).length ∧
    cellAt (placeStartAndExit twoOpenFixture) 1 1 = 'S' ∧
    cellAt (placeStartAndExit twoOpenFixture) 2 1 = 'E' := by
  refine ⟨by decide,
    (placeStartAndExit_first_last_spec allWallsFixture).1 (by decide),
    by decide, ?_, ?_⟩
  · exact ((placeStartAndExit_first_last_spec twoOpenFixture).2
      (by decide)).2.2.2.1
  · exact ((placeStartAndExit_first_last_spec twoOpenFixture).2
      (by decide)).2.2.2.2.1

/-- C8: `canPassDoor` returns true for every character outside `'A'..'F'`,
and for a door in `'A'..'F'` it returns true exactly when bit
`door - 'A'` of the key mask is set. -/
theorem canPassDoor_spec (d : Char) (m : Nat) :
    (¬ ('A' ≤ d ∧ d ≤ 'F') → canPassDoor d m = true) ∧
    (('A' ≤ d ∧ d ≤ 'F') →
      (canPassDoor d m = true ↔ m.testBit (d.toNat - 'A'.toNat) = true)) := by
  constructor
  · intro h
    have hc : d < 'A' ∨ 'F' < d := by
      rcases not_and_or.mp h with h1 | h1
      · exact Or.inl (not_le.mp h1)
      · exact Or.inr (not_le.mp h1)
    unfold canPassDoor
    rw [if_pos hc]
  · intro h
    have hc : ¬ (d < 'A' ∨ 'F' < d) := by
      push_neg
      exact ⟨h.1, h.2⟩
    unfold canPassDoor
    rw [if_neg hc]
    dsimp only
    rw [Nat.add_sub_cancel, Nat.and_one_is_mod, Nat.shiftRight_eq_div_pow,
      Nat.testBit_to_div_mod]
    simp only [bne_iff_ne, ne_eq, decide_eq_true_eq]
    omega

/-- C8 witness: the non-door `'z'` always passes, and door `'C'` with mask
4 passes exactly as bit 2 of 4 dictates. -/
theorem canPassDoor_spec_witness :
    canPassDoor 'z' 0 = true ∧
      (canPassDoor 'C' 4 = true ↔ Nat.testBit 4 2 = true) :=
  ⟨(canPassDoor_spec 'z' 0).1 (by decide),
    (canPassDoor_spec 'C' 4).2 (by decide)⟩

/-- C9: for every input grid, `bfsPath` returns the empty path — the
missing-endpoint early return yields it, and in the other branch the BFS
queue is never seeded, so the loop never runs and the final return yields
it as well. -/
theorem bfsPath_always_empty (g : Grid) : bfsPath g = [] := by
  unfold bfsPath
  exact ite_self []

/-- C10: for every grid that contains both an `'S'` and an `'E'`,
`bfsPathKeys` returns the empty path: the unfilled-TODO safety block skips
every neighbour cell whose character lies in `'A'..'F'` — the exit `'E'`
included — so no state at the exit position is ever enqueued, the
position-only goal test never succeeds, and the search drains to the
empty-path return. -/
theorem bfsPathKeys_empty_whenever_endpoints_present (g : Grid)
    (hS : ∃ row ∈ g, 'S' ∈ row) (hE : ∃ row ∈ g, 'E' ∈ row) :
    bfsPathKeys g = [] := by
  have hSr : (findPosition g 'S').r ≠ -1 := findPositionAux_ne_of_mem g 'S' hS 0
  have hEr : (findPosition g 'E').r ≠ -1 := findPositionAux_ne_of_mem g 'E' hE 0
  obtain ⟨hS0, hS1, hSchar⟩ := findPosition_char g 'S' hSr
  obtain ⟨hE0, hE1, hEchar⟩ := findPosition_char g 'E' hEr
  unfold bfsPathKeys
  rw [if_neg (by push_neg; exact ⟨hSr, hEr⟩)]
  apply bfsKeysLoop_empty_of_no_goal g _ _ hEchar
  intro s hs
  have hseq : s = ⟨(findPosition g 'S').r, (findPosition g 'S').c, 0⟩ := by
    simpa using hs
  intro hpos
  rw [hseq] at hpos
  dsimp only at hpos
  have hchar : charAt g (findPosition g 'E').r (findPosition g 'E').c = 'S' := by
    rw [← hpos.1, ← hpos.2]
    exact hSchar
  rw [hEchar] at hchar
  exact absurd hchar (by decide)

/-- C10 witness: the one-row grid holding `'S'` then `'E'` contains both
endpoints and `bfsPathKeys` returns the empty path on it. -/
theorem bfsPathKeys_empty_whenever_endpoints_present_witness :
    bfsPathKeys [['S', 'E']] = [] :=
  bfsPathKeys_empty_whenever_endpoints_present [['S', 'E']]
    (by decide) (by decide)
